import Mathlib

/-!
Verification of the YiThume order clustering, batch assignment and
earnings-split engine (`yithume-lite-pro.js` and its unnamed sibling file).

The engine is embedded shallowly:
* localStorage collections become explicit lists inside a `Store` record;
* every impure input (current time, `Date.now()`/`Math.random()` based
  identifier generation) is passed as an explicit parameter;
* JS numbers carrying currency amounts are modelled as rationals, and
  `Math.round` as rounding half towards positive infinity;
* timestamps are modelled as integer milliseconds since the Unix epoch,
  with the local timezone taken to be UTC.
-/

namespace YiThume

/-- JavaScript `Math.round`: round half towards positive infinity. -/
def jsRound (x : ℚ) : ℤ := ⌊x + 1/2⌋

/-- Constant `CONFIG.DRIVER_SHARE_FIRST = 1.00`. -/
def driverShareFirst : ℚ := 1

/-- Constant `CONFIG.DRIVER_SHARE_NEXT = 0.40`. -/
def driverShareNext : ℚ := 2/5

/-- An order record; only the fields read or written by the core engine
are modelled (`orderId`, `zone`, `customer.address`, `baseFee`, `rushFee`,
`status`, `assigned_batch_id`). -/
structure Order where
  orderId : String
  zone : String
  address : String
  baseFee : ℚ
  rushFee : ℚ
  status : String
  assigned_batch_id : Option String
deriving DecidableEq

/-- A driver record (fields used by the engine). -/
structure Driver where
  id : String
  name : String
  zone : String
  is_active : Bool
deriving DecidableEq

/-- A batch record, as built by `autoAssign`. -/
structure Batch where
  id : String
  zone : String
  cluster_key : String
  driver : Driver
  orders : List String
  delivery_fee_each : ℚ
  driver_earnings : ℤ
  platform_delivery_margin : ℤ
  status : String
  started_at : ℤ
  completed_at : Option ℤ
deriving DecidableEq

/-- A payout record, as built by `generateWeeklyPayouts`. -/
structure Payout where
  id : String
  week_label : String
  windowFrom : ℤ
  windowTo : ℤ
  driver : Driver
  earnings : ℤ
  orders_count : ℕ
  batches_count : ℕ
  status : String
  created_at : ℤ
  ref : String
deriving DecidableEq

/-- The four localStorage collections used by the engine. -/
structure Store where
  orders : List Order
  drivers : List Driver
  batches : List Batch
  payouts : List Payout
deriving DecidableEq

/-! ### Address normalization and cluster keys -/

/-- Characters matched by the JavaScript regex class `\s` (the common ones:
space, tab, line feed, vertical tab, form feed, carriage return and
no-break space). -/
def isJsWS (c : Char) : Bool :=
  c = ' ' || c = '\t' || c = '\n' || c = '\x0b' || c = '\x0c' || c = '\r' || c = ' '

/-- The effect of `replace(/\s+/g, " ")` on a character list: every maximal run of
whitespace becomes a single space.  The boolean records whether the previous
character was part of a whitespace run. -/
def collapseWS : Bool → List Char → List Char
  | _, [] => []
  | prev, c :: rest =>
    if isJsWS c then
      if prev then collapseWS true rest else ' ' :: collapseWS true rest
    else
      c :: collapseWS false rest

/-- The effect of `trim()` on a character list. -/
def trimWS (l : List Char) : List Char :=
  ((l.dropWhile isJsWS).reverse.dropWhile isJsWS).reverse

/-- Address normalization used by `clusterKey`:
`(address).toLowerCase().replace(/\s+/g," ").trim()`. -/
def normalizeAddr (s : String) : String :=
  String.mk (trimWS (collapseWS false (s.data.map Char.toLower)))

/-- Function `clusterKey(order)` from the source. -/
def clusterKey (o : Order) : String :=
  let a := normalizeAddr o.address
  if a = "" then o.zone ++ "::zone-only" else o.zone ++ "::" ++ a

/-! ### Driver resolution and earnings split -/

/-- Function `pickDriverForZone(zone)`: the first active driver whose zone matches,
else the first driver in the directory, else none. -/
def pickDriverForZone (drivers : List Driver) (zone : String) : Option Driver :=
  match drivers.find? (fun d => d.zone == zone && d.is_active) with
  | some d => some d
  | none => drivers.head?

/-- Function `computeClusterEarnings(n, feeEach)` from the source. -/
def computeClusterEarnings (n : ℕ) (feeEach : ℚ) : ℤ × ℤ :=
  let first := feeEach * driverShareFirst
  let rest := ((max 0 ((n : ℤ) - 1) : ℤ) : ℚ) * feeEach * driverShareNext
  let driverTotal := jsRound (first + rest)
  let allFees := (n : ℚ) * feeEach
  let platformDeliveryMargin := jsRound (allFees - (driverTotal : ℚ))
  (driverTotal, platformDeliveryMargin)

/-! ### autoAssign -/

/-- JavaScript truthiness of an optional batch reference
(`undefined` and the empty string are falsy). -/
def refTruthy : Option String → Bool
  | none => false
  | some s => !(s == "")

/-- Eligibility filter of `autoAssign` in `yithume-lite-pro.js`:
`(o.status === "approved" || o.status === "paid") && !o.assigned_batch_id`. -/
def isCandidate (o : Order) : Bool :=
  (o.status == "approved" || o.status == "paid") && !(refTruthy o.assigned_batch_id)

/-- Eligibility filter of `autoAssign` in the unnamed sibling file:
`o.status === "paid" && !o.assigned_batch_id`. -/
def isCandidateV0 (o : Order) : Bool :=
  (o.status == "paid") && !(refTruthy o.assigned_batch_id)

/-- Keys of a JS object in insertion order: first occurrences, skipping
those already seen. -/
def firstOccsFrom (seen : List String) : List String → List String
  | [] => []
  | k :: rest =>
    if k ∈ seen then firstOccsFrom seen rest
    else k :: firstOccsFrom (k :: seen) rest

/-- Result of `Object.keys(byKey)` for the grouping object built by `autoAssign`. -/
def firstOccs (l : List String) : List String := firstOccsFrom [] l

/-- Fee `order.baseFee + order.rushFee` (`feeOf` in the source). -/
def feeOf (o : Order) : ℚ := o.baseFee + o.rushFee

/-- Replace the first element satisfying `p` by its image under `f`
(the `findIndex` + in-place mutation idiom of the source). -/
def updateFirst {α : Type} (p : α → Bool) (f : α → α) : List α → List α
  | [] => []
  | x :: xs => if p x then f x :: xs else x :: updateFirst p f xs

/-- Marking an order as assigned to batch `bid`. -/
def assignToBatch (bid : String) (o : Order) : Order :=
  { o with status := "assigned", assigned_batch_id := some bid }

/-- The batch record built for one cluster group. -/
def mkBatch (bid : String) (now : ℤ) (k : String) (d : Driver) (g0 : Order)
    (group : List Order) : Batch :=
  { id := bid
    zone := g0.zone
    cluster_key := k
    driver := d
    orders := group.map (fun o => o.orderId)
    delivery_fee_each := feeOf g0
    driver_earnings := (computeClusterEarnings group.length (feeOf g0)).1
    platform_delivery_margin := (computeClusterEarnings group.length (feeOf g0)).2
    status := "assigned"
    started_at := now
    completed_at := none }

/-- The per-cluster loop of `autoAssign`: for each key, take its group,
resolve a driver, build a batch, and mark the group's orders assigned.
`genId cnt` stands for the time-and-random based identifier of the
`cnt`-th created batch. -/
def runGroups (genId : ℕ → String) (now : ℤ) (drivers : List Driver)
    (cands : List Order) :
    List String → List Order → List Batch → ℕ → List Order × List Batch
  | [], orders, created, _ => (orders, created)
  | k :: ks, orders, created, cnt =>
    let group := cands.filter (fun o => clusterKey o == k)
    match group with
    | [] => runGroups genId now drivers cands ks orders created cnt
    | g0 :: _ =>
      match pickDriverForZone drivers g0.zone with
      | none => runGroups genId now drivers cands ks orders created cnt
      | some d =>
        let bid := genId cnt
        let batch := mkBatch bid now k d g0 group
        let orders' := group.foldl
          (fun os o =>
            updateFirst (fun x => x.orderId == o.orderId) (assignToBatch bid) os)
          orders
        runGroups genId now drivers cands ks orders' (created ++ [batch]) (cnt + 1)

/-- Function `autoAssign()` parametrized by the eligibility filter (the two source
files differ only there). -/
def autoAssignWith (elig : Order → Bool) (genId : ℕ → String) (now : ℤ)
    (st : Store) : List Batch × Store :=
  let cands := st.orders.filter elig
  let keys := firstOccs (cands.map clusterKey)
  let res := runGroups genId now st.drivers cands keys st.orders [] 0
  (res.2, { st with orders := res.1, batches := st.batches ++ res.2 })

/-- Function `autoAssign()` of `yithume-lite-pro.js` (eligible: approved or paid). -/
def autoAssign (genId : ℕ → String) (now : ℤ) (st : Store) : List Batch × Store :=
  autoAssignWith isCandidate genId now st

/-- Function `autoAssign()` of the unnamed sibling file (eligible: paid only). -/
def autoAssignV0 (genId : ℕ → String) (now : ℤ) (st : Store) : List Batch × Store :=
  autoAssignWith isCandidateV0 genId now st

/-! ### completeBatch -/

/-- Marking an order delivered. -/
def setDelivered (o : Order) : Order := { o with status := "delivered" }

/-- Function `completeBatch(batchId)` from the source: the boolean is the
found/not-found signal. -/
def completeBatch (now : ℤ) (batchId : String) (st : Store) : Bool × Store :=
  match st.batches.find? (fun b => b.id == batchId) with
  | none => (false, st)
  | some b =>
    let orders' := b.orders.foldl
      (fun os oid => updateFirst (fun o => o.orderId == oid) setDelivered os)
      st.orders
    let batches' := updateFirst (fun bb => bb.id == batchId)
      (fun bb => { bb with status := "completed", completed_at := some now })
      st.batches
    (true, { st with orders := orders', batches := batches' })

/-! ### Calendar arithmetic (civil dates, UTC) -/

/-- JavaScript `new Date(ms).getDay()` for a civil day number (1970-01-01 was a
Thursday, JS day index 4). -/
def dowOfDay (d : ℤ) : ℤ := (d + 4) % 7

/-- Civil day number (days since 1970-01-01) of a timestamp in ms. -/
def civilDayOfMs (ms : ℤ) : ℤ := Int.fdiv ms 86400000

/-- Day number of the civil date `y-m-d` (Howard Hinnant's
`days_from_civil`). -/
def daysFromCivil (y m d : ℤ) : ℤ :=
  let y' := if m ≤ 2 then y - 1 else y
  let era := Int.fdiv y' 400
  let yoe := y' - era * 400
  let mp := if m > 2 then m - 3 else m + 9
  let doy := Int.fdiv (153 * mp + 2) 5 + d - 1
  let doe := yoe * 365 + Int.fdiv yoe 4 - Int.fdiv yoe 100 + doy
  era * 146097 + doe - 719468

/-- Calendar year of a civil day number (Howard Hinnant's
`civil_from_days`, year component). -/
def yearOfDay (z : ℤ) : ℤ :=
  let z' := z + 719468
  let era := Int.fdiv z' 146097
  let doe := z' - era * 146097
  let yoe := Int.fdiv (doe - Int.fdiv doe 1460 + Int.fdiv doe 36524 - Int.fdiv doe 146096) 365
  let y := yoe + era * 400
  let doy := doe - (365 * yoe + Int.fdiv yoe 4 - Int.fdiv yoe 100)
  let mp := Int.fdiv (5 * doy + 2) 153
  let m := if mp < 10 then mp + 3 else mp - 9
  if m ≤ 2 then y + 1 else y

/-- Padding `String(n).padStart(2, "0")` for the week number. -/
def pad2 (n : ℤ) : String :=
  if 0 ≤ n ∧ n < 10 then "0" ++ toString n else toString n

/-- The week-number formula of the source:
`Math.ceil((((monday - onejan) / 86400000) + onejan.getDay() + 1) / 7)`. -/
def jsWeekNumber (mondayDay : ℤ) : ℤ :=
  let y := yearOfDay mondayDay
  let onejan := daysFromCivil y 1 1
  let a := (mondayDay - onejan) + dowOfDay onejan + 1
  Int.fdiv (a + 6) 7

/-- The week label written into payout records by the source:
calendar year of the window's Monday, a dash, `W`, and the two-digit
week number of `jsWeekNumber`. -/
def weekLabel (mondayDay : ℤ) : String :=
  toString (yearOfDay mondayDay) ++ "-W" ++ pad2 (jsWeekNumber mondayDay)

/-- Modelled from the spec: the ISO-8601 week label
`<ISO year>-W<2-digit ISO week>` of a Monday.  The ISO year and week of a
Monday are determined by the Thursday of its week: the ISO year is that
Thursday's calendar year, and the week number counts Thursdays since the
first Thursday of that year. -/
def isoWeekLabel (mondayDay : ℤ) : String :=
  let th := mondayDay + 3
  let y := yearOfDay th
  let jan1 := daysFromCivil y 1 1
  let firstThu := jan1 + (4 - dowOfDay jan1) % 7
  let week := Int.fdiv (th - firstThu) 7 + 1
  toString y ++ "-W" ++ pad2 week

/-- Civil day of the Monday starting the week of `forMs`
(`getDay`, `setHours(0,0,0,0)`, `setDate(getDate() - (day+6)%7)`). -/
def mondayDayOf (forMs : ℤ) : ℤ :=
  let d := civilDayOfMs forMs
  d - (dowOfDay d + 6) % 7

/-! ### generateWeeklyPayouts -/

/-- The window filter of `generateWeeklyPayouts`:
completed, with a completion timestamp inside `[lo, hi]` (a missing
timestamp parses to an invalid date and fails both comparisons). -/
def inWindow (lo hi : ℤ) (b : Batch) : Bool :=
  b.status == "completed" &&
    (match b.completed_at with
     | none => false
     | some t => decide (lo ≤ t ∧ t ≤ hi))

/-- Last `n` characters of a string (`id.slice(-4)`). -/
def lastChars (n : ℕ) (s : String) : String :=
  String.mk ((s.data.reverse.take n).reverse)

/-- Placeholder driver for the unreachable empty-group branch. -/
def noDriver : Driver := { id := "", name := "", zone := "", is_active := false }

/-- Sum of the `driver_earnings` of a list of batches
(`Math.round` on this sum is the identity, the summands being integers). -/
def sumEarnings (l : List Batch) : ℤ := l.foldl (fun s b => s + b.driver_earnings) 0

/-- Sum of the order counts of a list of batches. -/
def sumOrderCounts (l : List Batch) : ℕ := l.foldl (fun s b => s + b.orders.length) 0

/-- The payout record built for one driver group. -/
def mkPayout (pid : String) (now : ℤ) (week : String) (mondayMs sundayMs : ℤ)
    (did : String) (grp : List Batch) : Payout :=
  { id := pid
    week_label := week
    windowFrom := mondayMs
    windowTo := sundayMs
    driver := (match grp with | [] => noDriver | g :: _ => g.driver)
    earnings := sumEarnings grp
    orders_count := sumOrderCounts grp
    batches_count := grp.length
    status := "pending"
    created_at := now
    ref := "YI-" ++ week ++ "-" ++ lastChars 4 did }

/-- The per-driver loop of `generateWeeklyPayouts`. -/
def buildPayouts (genId : ℕ → String) (now : ℤ) (week : String)
    (mondayMs sundayMs : ℤ) (inRange : List Batch) :
    List String → ℕ → List Payout
  | [], _ => []
  | did :: rest, j =>
    mkPayout (genId j) now week mondayMs sundayMs did
        (inRange.filter (fun b => b.driver.id == did)) ::
      buildPayouts genId now week mondayMs sundayMs inRange rest (j + 1)

/-- Function `generateWeeklyPayouts(forDate)` from the source.  `forMs` is the
reference date as ms since the epoch, `genId j` the identifier of the
`j`-th created payout, `now` the creation timestamp. -/
def generateWeeklyPayouts (genId : ℕ → String) (now : ℤ) (forMs : ℤ)
    (st : Store) : List Payout × Store :=
  let mday := mondayDayOf forMs
  let mondayMs := mday * 86400000
  let sundayMs := mondayMs + 7 * 86400000 - 1
  let inRange := st.batches.filter (inWindow mondayMs sundayMs)
  let ids := firstOccs (inRange.map (fun b => b.driver.id))
  let out := buildPayouts genId now (weekLabel mday) mondayMs sundayMs inRange ids 0
  (out, { st with payouts := st.payouts ++ out })

/-! ### Rounding lemmas -/

/-- Round-half-up as the spec describes it: take the floor, and bump by one
when the fractional part is at least one half. -/
def roundHalfUp (x : ℚ) : ℤ :=
  if Int.fract x < 1/2 then ⌊x⌋ else ⌊x⌋ + 1

theorem jsRound_intCast (m : ℤ) : jsRound (m : ℚ) = m := by
  unfold jsRound
  rw [Int.floor_eq_iff]
  constructor
  · linarith
  · linarith

theorem jsRound_sub_abs (x : ℚ) : |((jsRound x : ℤ) : ℚ) - x| ≤ 1/2 := by
  unfold jsRound
  rw [abs_le]
  have h1 := Int.lt_floor_add_one (x + 1/2)
  have h2 := Int.floor_le (x + 1/2)
  constructor
  · linarith
  · linarith

theorem roundHalfUp_eq_jsRound (x : ℚ) : roundHalfUp x = jsRound x := by
  unfold roundHalfUp jsRound
  have hx : (⌊x⌋ : ℚ) + Int.fract x = x := Int.floor_add_fract x
  have h0 : 0 ≤ Int.fract x := Int.fract_nonneg x
  have h1 : Int.fract x < 1 := Int.fract_lt_one x
  split
  · next h =>
    symm
    rw [Int.floor_eq_iff]
    constructor
    · linarith
    · linarith
  · next h =>
    push_neg at h
    symm
    rw [Int.floor_eq_iff]
    constructor
    · push_cast
      linarith
    · push_cast
      linarith

theorem computeClusterEarnings_fst (n : ℕ) (fee : ℚ) :
    (computeClusterEarnings n fee).1 =
      jsRound (fee * driverShareFirst +
        ((max 0 ((n : ℤ) - 1) : ℤ) : ℚ) * fee * driverShareNext) := rfl

theorem computeClusterEarnings_snd (n : ℕ) (fee : ℚ) :
    (computeClusterEarnings n fee).2 =
      jsRound ((n : ℚ) * fee - ((computeClusterEarnings n fee).1 : ℚ)) := rfl

/-- The driver share plus the platform margin differ from the total fees by
at most one half, and agree exactly when the total is an integer. -/
theorem computeClusterEarnings_sum_close (n : ℕ) (fee : ℚ) :
    |(((computeClusterEarnings n fee).1 + (computeClusterEarnings n fee).2 : ℤ) : ℚ) -
        (n : ℚ) * fee| ≤ 1 ∧
      (∀ z : ℤ, (n : ℚ) * fee = (z : ℚ) →
        (computeClusterEarnings n fee).1 + (computeClusterEarnings n fee).2 = z) := by
  set dt := (computeClusterEarnings n fee).1 with hdt
  have hsnd := computeClusterEarnings_snd n fee
  constructor
  · have habs := jsRound_sub_abs ((n : ℚ) * fee - (dt : ℚ))
    rw [← hdt] at hsnd
    rw [hsnd]
    have h12 : (1 : ℚ)/2 ≤ 1 := by norm_num
    calc |(((dt + jsRound ((n : ℚ) * fee - (dt : ℚ))) : ℤ) : ℚ) - (n : ℚ) * fee|
        = |((jsRound ((n : ℚ) * fee - (dt : ℚ)) : ℤ) : ℚ) - ((n : ℚ) * fee - (dt : ℚ))| := by
          push_cast
          ring_nf
      _ ≤ 1/2 := habs
      _ ≤ 1 := h12
  · intro z hz
    rw [← hdt] at hsnd
    rw [hsnd, hz]
    have : ((z : ℚ) - (dt : ℚ)) = (((z - dt : ℤ)) : ℚ) := by push_cast; ring
    rw [this, jsRound_intCast]
    ring

/-! ### Generic lemmas about `updateFirst` and keyed lookup -/

section Keyed

variable {α : Type} (key : α → String)

theorem updateFirst_map_key (p : α → Bool) (f : α → α)
    (hf : ∀ x, key (f x) = key x) :
    ∀ l : List α, (updateFirst p f l).map key = l.map key := by
  intro l
  induction l with
  | nil => rfl
  | cons x xs ih =>
    unfold updateFirst
    split
    · simp [hf]
    · simp [ih]

theorem find?_updateFirst_other (f : α → α) (oid oid' : String)
    (hne : oid' ≠ oid) (hf : ∀ x, key (f x) = key x) :
    ∀ l : List α,
      (updateFirst (fun x => key x == oid') f l).find? (fun x => key x == oid) =
        l.find? (fun x => key x == oid) := by
  intro l
  induction l with
  | nil => rfl
  | cons x xs ih =>
    unfold updateFirst
    by_cases hx : key x = oid'
    · simp only [hx, beq_self_eq_true, if_true]
      have h1 : (key (f x) == oid) = false := by
        simp [hf, hx, hne]
      have h2 : (key x == oid) = false := by
        simp [hx, hne]
      simp [List.find?, h1, h2]
    · have hx' : (key x == oid') = false := by simp [hx]
      simp only [hx', if_false]
      by_cases hy : key x = oid
      · simp [List.find?, hy]
      · have hy' : (key x == oid) = false := by simp [hy]
        simp [List.find?, hy', ih]

theorem find?_updateFirst_self (f : α → α) (oid : String)
    (hf : ∀ x, key (f x) = key x) :
    ∀ l : List α,
      (updateFirst (fun x => key x == oid) f l).find? (fun x => key x == oid) =
        (l.find? (fun x => key x == oid)).map f := by
  intro l
  induction l with
  | nil => rfl
  | cons x xs ih =>
    unfold updateFirst
    by_cases hx : key x = oid
    · have h1 : (key (f x) == oid) = true := by simp [hf, hx]
      have h2 : (key x == oid) = true := by simp [hx]
      simp [List.find?, h1, h2]
    · have h2 : (key x == oid) = false := by simp [hx]
      simp [List.find?, h2, ih]

theorem find?_eq_some_self_of_nodup {l : List α} {x : α}
    (hnd : (l.map key).Nodup) (hx : x ∈ l) :
    l.find? (fun y => key y == key x) = some x := by
  induction l with
  | nil => cases hx
  | cons h t ih =>
    rcases List.mem_cons.mp hx with rfl | hxt
    · simp [List.find?]
    · have hnd' : (t.map key).Nodup := (List.nodup_cons.mp hnd).2
      have hkh : key h ∉ t.map key := (List.nodup_cons.mp hnd).1
      have hne : key h ≠ key x := by
        intro he
        exact hkh (he ▸ List.mem_map_of_mem key hxt)
      have h2 : (key h == key x) = false := by simp [hne]
      simp [List.find?, h2, ih hnd' hxt]

theorem key_ne_of_mem_nodup {l : List α} {x y : α}
    (hnd : (l.map key).Nodup) (hx : x ∈ l) (hy : y ∈ l) (hne : x ≠ y) :
    key x ≠ key y := by
  intro he
  induction l with
  | nil => cases hx
  | cons h t ih =>
    have hkh : key h ∉ t.map key := (List.nodup_cons.mp hnd).1
    have hnd' : (t.map key).Nodup := (List.nodup_cons.mp hnd).2
    rcases List.mem_cons.mp hx with rfl | hxt
    · rcases List.mem_cons.mp hy with rfl | hyt
      · exact hne rfl
      · exact hkh (he ▸ List.mem_map_of_mem key hyt)
    · rcases List.mem_cons.mp hy with rfl | hyt
      · exact hkh (he ▸ List.mem_map_of_mem key hxt)
      · exact ih hnd' hxt hyt

end Keyed

/-! ### Lemmas about `firstOccs` -/

theorem mem_firstOccsFrom (x : String) :
    ∀ (l seen : List String), x ∈ firstOccsFrom seen l ↔ x ∈ l ∧ x ∉ seen := by
  intro l
  induction l with
  | nil => intro seen; simp [firstOccsFrom]
  | cons k rest ih =>
    intro seen
    unfold firstOccsFrom
    split
    · next hk =>
      rw [ih seen]
      constructor
      · rintro ⟨hx, hs⟩
        exact ⟨List.mem_cons_of_mem k hx, hs⟩
      · rintro ⟨hx, hs⟩
        rcases List.mem_cons.mp hx with rfl | hx'
        · exact absurd hk hs
        · exact ⟨hx', hs⟩
    · next hk =>
      constructor
      · intro hx
        rcases List.mem_cons.mp hx with rfl | hx'
        · exact ⟨List.mem_cons_self x rest, hk⟩
        · obtain ⟨hxr, hxs⟩ := (ih (k :: seen)).mp hx'
          exact ⟨List.mem_cons_of_mem k hxr,
            fun hxseen => hxs (List.mem_cons_of_mem k hxseen)⟩
      · rintro ⟨hx, hs⟩
        rcases List.mem_cons.mp hx with rfl | hx'
        · exact List.mem_cons_self x (firstOccsFrom (x :: seen) rest)
        · by_cases hxk : x = k
          · exact hxk ▸ List.mem_cons_self k (firstOccsFrom (k :: seen) rest)
          · refine List.mem_cons_of_mem k ((ih (k :: seen)).mpr ⟨hx', ?_⟩)
            intro hxks
            rcases List.mem_cons.mp hxks with h | h
            · exact hxk h
            · exact hs h

theorem mem_firstOccs (x : String) (l : List String) :
    x ∈ firstOccs l ↔ x ∈ l := by
  unfold firstOccs
  rw [mem_firstOccsFrom]
  simp

theorem nodup_firstOccsFrom :
    ∀ (l seen : List String), (firstOccsFrom seen l).Nodup := by
  intro l
  induction l with
  | nil => intro seen; simp [firstOccsFrom]
  | cons k rest ih =>
    intro seen
    unfold firstOccsFrom
    split
    · exact ih seen
    · rw [List.nodup_cons]
      refine ⟨fun hk => ?_, ih (k :: seen)⟩
      have := (mem_firstOccsFrom k rest (k :: seen)).mp hk
      exact this.2 (List.mem_cons_self k seen)

theorem nodup_firstOccs (l : List String) : (firstOccs l).Nodup :=
  nodup_firstOccsFrom l []

/-! ### Lemmas about the per-group order updates -/

theorem assignToBatch_orderId (bid : String) (x : Order) :
    (assignToBatch bid x).orderId = x.orderId := rfl

theorem foldl_update_map_id (f : Order → Order)
    (hf : ∀ x, (f x).orderId = x.orderId) :
    ∀ (group : List Order) (os : List Order),
      ((group.foldl
        (fun os o => updateFirst (fun x => x.orderId == o.orderId) f os) os).map
          (fun x => x.orderId)) = os.map (fun x => x.orderId) := by
  intro group
  induction group with
  | nil => intro os; rfl
  | cons m rest ih =>
    intro os
    simp only [List.foldl_cons]
    rw [ih, updateFirst_map_key (fun x => x.orderId) _ f hf]

theorem foldl_update_find?_other (f : Order → Order)
    (hf : ∀ x, (f x).orderId = x.orderId) (oid : String) :
    ∀ (group : List Order) (os : List Order),
      (∀ m ∈ group, m.orderId ≠ oid) →
      ((group.foldl
        (fun os o => updateFirst (fun x => x.orderId == o.orderId) f os) os).find?
          (fun x => x.orderId == oid)) = os.find? (fun x => x.orderId == oid) := by
  intro group
  induction group with
  | nil => intro os _; rfl
  | cons m rest ih =>
    intro os hall
    simp only [List.foldl_cons]
    rw [ih _ (fun m' hm' => hall m' (List.mem_cons_of_mem m hm')),
      find?_updateFirst_other (fun x => x.orderId) f oid m.orderId
        (hall m (List.mem_cons_self m rest)) hf]

theorem foldl_update_find?_self (f : Order → Order)
    (hf : ∀ x, (f x).orderId = x.orderId) :
    ∀ (group : List Order) (os : List Order) (o v : Order),
      o ∈ group → (group.map (fun x => x.orderId)).Nodup →
      os.find? (fun x => x.orderId == o.orderId) = some v →
      ((group.foldl
        (fun os o => updateFirst (fun x => x.orderId == o.orderId) f os) os).find?
          (fun x => x.orderId == o.orderId)) = some (f v) := by
  intro group
  induction group with
  | nil => intro os o v ho; cases ho
  | cons m rest ih =>
    intro os o v ho hnd hfind
    have hnd' : (rest.map (fun x => x.orderId)).Nodup := (List.nodup_cons.mp hnd).2
    have hmid : m.orderId ∉ rest.map (fun x => x.orderId) := (List.nodup_cons.mp hnd).1
    simp only [List.foldl_cons]
    rcases List.mem_cons.mp ho with rfl | hor
    · have hstep := find?_updateFirst_self (fun x => x.orderId) f o.orderId hf os
      rw [hfind] at hstep
      refine Eq.trans (foldl_update_find?_other f hf o.orderId rest _ ?_) hstep
      intro m' hm' he
      exact hmid (he ▸ List.mem_map_of_mem (fun x => x.orderId) hm')
    · have hne : m.orderId ≠ o.orderId := by
        intro he
        exact hmid (he ▸ List.mem_map_of_mem (fun x => x.orderId) hor)
      have hstep := find?_updateFirst_other (fun x => x.orderId) f o.orderId m.orderId hne hf os
      rw [hfind] at hstep
      exact ih _ o v hor hnd' hstep

/-! ### Lemmas about `pickDriverForZone` and `runGroups` -/

theorem pickDriverForZone_isSome {drivers : List Driver} (z : String)
    (h : drivers ≠ []) : ∃ d, pickDriverForZone drivers z = some d := by
  unfold pickDriverForZone
  cases hf : drivers.find? (fun d => d.zone == z && d.is_active) with
  | some d => exact ⟨d, rfl⟩
  | none =>
    cases drivers with
    | nil => exact absurd rfl h
    | cons d t => exact ⟨d, rfl⟩

theorem runGroups_no_drivers (genId : ℕ → String) (now : ℤ) (cands : List Order) :
    ∀ (keys : List String) (os : List Order) (acc : List Batch) (cnt : ℕ),
      runGroups genId now [] cands keys os acc cnt = (os, acc) := by
  intro keys
  induction keys with
  | nil => intro os acc cnt; rfl
  | cons k ks ih =>
    intro os acc cnt
    unfold runGroups
    cases hg : cands.filter (fun o => clusterKey o == k) with
    | nil => exact ih os acc cnt
    | cons g0 gs =>
      have hpd : pickDriverForZone [] g0.zone = none := rfl
      simp only [hpd]
      exact ih os acc cnt

theorem runGroups_map_id (genId : ℕ → String) (now : ℤ) (drivers : List Driver)
    (cands : List Order) :
    ∀ (keys : List String) (os : List Order) (acc : List Batch) (cnt : ℕ),
      ((runGroups genId now drivers cands keys os acc cnt).1.map
        (fun x => x.orderId)) = os.map (fun x => x.orderId) := by
  intro keys
  induction keys with
  | nil => intro os acc cnt; rfl
  | cons k ks ih =>
    intro os acc cnt
    unfold runGroups
    cases hg : cands.filter (fun o => clusterKey o == k) with
    | nil => exact ih os acc cnt
    | cons g0 gs =>
      cases hpd : pickDriverForZone drivers g0.zone with
      | none =>
        simp only [hpd]
        exact ih os acc cnt
      | some d =>
        simp only [hpd]
        rw [ih, foldl_update_map_id _ (assignToBatch_orderId (genId cnt))]

theorem runGroups_created_sub (genId : ℕ → String) (now : ℤ) (drivers : List Driver)
    (cands : List Order) :
    ∀ (keys : List String) (os : List Order) (acc : List Batch) (cnt : ℕ) (b : Batch),
      b ∈ acc → b ∈ (runGroups genId now drivers cands keys os acc cnt).2 := by
  intro keys
  induction keys with
  | nil => intro os acc cnt b hb; exact hb
  | cons k ks ih =>
    intro os acc cnt b hb
    unfold runGroups
    cases hg : cands.filter (fun o => clusterKey o == k) with
    | nil => exact ih os acc cnt b hb
    | cons g0 gs =>
      cases hpd : pickDriverForZone drivers g0.zone with
      | none =>
        simp only [hpd]
        exact ih os acc cnt b hb
      | some d =>
        simp only [hpd]
        exact ih _ _ _ b (List.mem_append_left _ hb)

theorem runGroups_created_char (genId : ℕ → String) (now : ℤ) (drivers : List Driver)
    (cands : List Order) :
    ∀ (keys : List String) (os : List Order) (acc : List Batch) (cnt : ℕ) (b : Batch),
      b ∈ (runGroups genId now drivers cands keys os acc cnt).2 →
      b ∈ acc ∨ ∃ (k : String) (d : Driver) (j : ℕ) (g0 : Order) (gs : List Order),
        cands.filter (fun o => clusterKey o == k) = g0 :: gs ∧
          b = mkBatch (genId j) now k d g0 (g0 :: gs) := by
  intro keys
  induction keys with
  | nil => intro os acc cnt b hb; exact Or.inl hb
  | cons k ks ih =>
    intro os acc cnt b hb
    rw [runGroups] at hb
    revert hb
    cases hg : cands.filter (fun o => clusterKey o == k) with
    | nil =>
      intro hb
      exact ih os acc cnt b hb
    | cons g0 gs =>
      cases hpd : pickDriverForZone drivers g0.zone with
      | none =>
        intro hb
        simp only [hpd] at hb
        exact ih os acc cnt b hb
      | some d =>
        intro hb
        simp only [hpd] at hb
        rcases ih _ _ _ b hb with hacc | hex
        · rcases List.mem_append.mp hacc with h1 | h2
          · exact Or.inl h1
          · rcases List.mem_singleton.mp h2 with rfl
            exact Or.inr ⟨k, d, cnt, g0, gs, hg, rfl⟩
        · exact Or.inr hex

theorem runGroups_key_batch (genId : ℕ → String) (now : ℤ) (drivers : List Driver)
    (cands : List Order) (hdr : drivers ≠ []) (k : String) (g0 : Order)
    (gs : List Order) (hg : cands.filter (fun o => clusterKey o == k) = g0 :: gs) :
    ∀ (keys : List String) (os : List Order) (acc : List Batch) (cnt : ℕ),
      k ∈ keys →
      ∃ b ∈ (runGroups genId now drivers cands keys os acc cnt).2,
        b.orders = (g0 :: gs).map (fun o => o.orderId) := by
  intro keys
  induction keys with
  | nil => intro os acc cnt hk; cases hk
  | cons k0 ks ih =>
    intro os acc cnt hk
    by_cases hkk : k0 = k
    · subst hkk
      rw [runGroups]
      obtain ⟨d, hpd⟩ := pickDriverForZone_isSome g0.zone hdr
      simp only [hg, hpd]
      refine ⟨mkBatch (genId cnt) now k0 d g0 (g0 :: gs), ?_, rfl⟩
      exact runGroups_created_sub genId now drivers cands ks _ _ _ _
        (List.mem_append_right _ (List.mem_singleton_self _))
    · have hk' : k ∈ ks := by
        rcases List.mem_cons.mp hk with h | h
        · exact absurd h.symm hkk
        · exact h
      rw [runGroups]
      cases hg0 : cands.filter (fun o => clusterKey o == k0) with
      | nil =>
        simp only [hg0]
        exact ih os acc cnt hk'
      | cons h0 hs =>
        cases hpd : pickDriverForZone drivers h0.zone with
        | none =>
          simp only [hg0, hpd]
          exact ih os acc cnt hk'
        | some d =>
          simp only [hg0, hpd]
          exact ih _ _ _ hk'

theorem runGroups_find_frozen_of_no_cand (genId : ℕ → String) (now : ℤ)
    (drivers : List Driver) (cands : List Order) (oid : String) (v : Order)
    (hall : ∀ m ∈ cands, m.orderId ≠ oid) :
    ∀ (keys : List String) (os : List Order) (acc : List Batch) (cnt : ℕ),
      os.find? (fun x => x.orderId == oid) = some v →
      (runGroups genId now drivers cands keys os acc cnt).1.find?
        (fun x => x.orderId == oid) = some v := by
  intro keys
  induction keys with
  | nil => intro os acc cnt hfind; exact hfind
  | cons k ks ih =>
    intro os acc cnt hfind
    rw [runGroups]
    cases hg : cands.filter (fun o => clusterKey o == k) with
    | nil => exact ih os acc cnt hfind
    | cons g0 gs =>
      cases hpd : pickDriverForZone drivers g0.zone with
      | none =>
        simp only [hpd]
        exact ih os acc cnt hfind
      | some d =>
        simp only [hpd]
        refine ih _ _ _ ?_
        rw [foldl_update_find?_other _ (assignToBatch_orderId (genId cnt)) oid _ _ ?_]
        · exact hfind
        · intro m hm
          have hmc : m ∈ cands := List.mem_of_mem_filter (hg ▸ hm)
          exact hall m hmc

theorem runGroups_find_frozen_of_key_out (genId : ℕ → String) (now : ℤ)
    (drivers : List Driver) (cands : List Order) (o v : Order)
    (ho : o ∈ cands) (hnodc : (cands.map (fun x => x.orderId)).Nodup) :
    ∀ (keys : List String) (os : List Order) (acc : List Batch) (cnt : ℕ),
      clusterKey o ∉ keys →
      os.find? (fun x => x.orderId == o.orderId) = some v →
      (runGroups genId now drivers cands keys os acc cnt).1.find?
        (fun x => x.orderId == o.orderId) = some v := by
  intro keys
  induction keys with
  | nil => intro os acc cnt _ hfind; exact hfind
  | cons k ks ih =>
    intro os acc cnt hkout hfind
    have hk1 : k ≠ clusterKey o := by
      intro he
      exact hkout (he ▸ List.mem_cons_self k ks)
    have hk2 : clusterKey o ∉ ks := fun h => hkout (List.mem_cons_of_mem k h)
    rw [runGroups]
    cases hg : cands.filter (fun o => clusterKey o == k) with
    | nil => exact ih os acc cnt hk2 hfind
    | cons g0 gs =>
      cases hpd : pickDriverForZone drivers g0.zone with
      | none =>
        simp only [hpd]
        exact ih os acc cnt hk2 hfind
      | some d =>
        simp only [hpd]
        refine ih _ _ _ hk2 ?_
        rw [foldl_update_find?_other _ (assignToBatch_orderId (genId cnt)) o.orderId _ _ ?_]
        · exact hfind
        · intro m hm
          have hm' : m ∈ cands.filter (fun o => clusterKey o == k) := hg ▸ hm
          have hmc : m ∈ cands := List.mem_of_mem_filter hm'
          have hmk : clusterKey m = k := by
            have := List.of_mem_filter hm'
            exact eq_of_beq this
          have hmo : m ≠ o := by
            intro he
            exact hk1 (by rw [← hmk, he])
          exact key_ne_of_mem_nodup (fun x => x.orderId) hnodc hmc ho hmo

theorem runGroups_find_assigned (genId : ℕ → String) (now : ℤ)
    (drivers : List Driver) (cands : List Order) (o : Order)
    (hdr : drivers ≠ []) (ho : o ∈ cands)
    (hnodc : (cands.map (fun x => x.orderId)).Nodup) :
    ∀ (keys : List String) (os : List Order) (acc : List Batch) (cnt : ℕ),
      clusterKey o ∈ keys → keys.Nodup →
      os.find? (fun x => x.orderId == o.orderId) = some o →
      ∃ j, (runGroups genId now drivers cands keys os acc cnt).1.find?
        (fun x => x.orderId == o.orderId) = some (assignToBatch (genId j) o) := by
  intro keys
  induction keys with
  | nil => intro os acc cnt hk; cases hk
  | cons k ks ih =>
    intro os acc cnt hk hknd hfind
    by_cases hkk : k = clusterKey o
    · subst hkk
      have hog : o ∈ cands.filter (fun o' => clusterKey o' == clusterKey o) :=
        List.mem_filter.mpr ⟨ho, beq_self_eq_true (clusterKey o)⟩
      rw [runGroups]
      cases hg : cands.filter (fun o' => clusterKey o' == clusterKey o) with
      | nil => rw [hg] at hog; cases hog
      | cons g0 gs =>
        obtain ⟨d, hpd⟩ := pickDriverForZone_isSome g0.zone hdr
        simp only [hpd]
        rw [hg] at hog
        have hgnd : ((g0 :: gs).map (fun x => x.orderId)).Nodup := by
          have hsub : (g0 :: gs).Sublist cands := by
            rw [← hg]
            exact List.filter_sublist cands
          exact (hsub.map (fun x => x.orderId)).nodup hnodc
        have hstep := foldl_update_find?_self (assignToBatch (genId cnt))
          (assignToBatch_orderId (genId cnt)) (g0 :: gs) os o o hog hgnd hfind
        have hkout : clusterKey o ∉ ks := (List.nodup_cons.mp hknd).1
        refine ⟨cnt, ?_⟩
        refine runGroups_find_frozen_of_key_out genId now drivers cands o
          (assignToBatch (genId cnt) o) ho hnodc ks _ _ _ hkout ?_
        exact hstep
    · have hk' : clusterKey o ∈ ks := by
        rcases List.mem_cons.mp hk with h | h
        · exact absurd h.symm hkk
        · exact h
      have hknd' : ks.Nodup := (List.nodup_cons.mp hknd).2
      rw [runGroups]
      cases hg : cands.filter (fun o' => clusterKey o' == k) with
      | nil => exact ih os acc cnt hk' hknd' hfind
      | cons g0 gs =>
        cases hpd : pickDriverForZone drivers g0.zone with
        | none =>
          simp only [hpd]
          exact ih os acc cnt hk' hknd' hfind
        | some d =>
          simp only [hpd]
          refine ih _ _ _ hk' hknd' ?_
          rw [foldl_update_find?_other _ (assignToBatch_orderId (genId cnt)) o.orderId _ _ ?_]
          · exact hfind
          · intro m hm
            have hm' : m ∈ cands.filter (fun o' => clusterKey o' == k) := hg ▸ hm
            have hmc : m ∈ cands := List.mem_of_mem_filter hm'
            have hmk0 := List.of_mem_filter hm'
            have hmk : clusterKey m = k := eq_of_beq hmk0
            have hmo : m ≠ o := by
              intro he
              exact hkk (by rw [← hmk, he])
            exact key_ne_of_mem_nodup (fun x => x.orderId) hnodc hmc ho hmo

/-! ### Lemmas about `autoAssignWith` -/

theorem autoAssignWith_no_drivers (elig : Order → Bool) (genId : ℕ → String)
    (now : ℤ) (st : Store) (h : st.drivers = []) :
    autoAssignWith elig genId now st = ([], st) := by
  obtain ⟨os, ds, bs, ps⟩ := st
  simp only at h
  subst h
  simp [autoAssignWith, runGroups_no_drivers]

theorem autoAssignWith_orders_map (elig : Order → Bool) (genId : ℕ → String)
    (now : ℤ) (st : Store) :
    ((autoAssignWith elig genId now st).2.orders).map (fun x => x.orderId) =
      st.orders.map (fun x => x.orderId) := by
  unfold autoAssignWith
  exact runGroups_map_id genId now st.drivers _ _ st.orders [] 0

theorem autoAssignWith_batches (elig : Order → Bool) (genId : ℕ → String)
    (now : ℤ) (st : Store) :
    (autoAssignWith elig genId now st).2.batches =
      st.batches ++ (autoAssignWith elig genId now st).1 := rfl

theorem autoAssignWith_drivers (elig : Order → Bool) (genId : ℕ → String)
    (now : ℤ) (st : Store) :
    (autoAssignWith elig genId now st).2.drivers = st.drivers := rfl

theorem autoAssignWith_payouts (elig : Order → Bool) (genId : ℕ → String)
    (now : ℤ) (st : Store) :
    (autoAssignWith elig genId now st).2.payouts = st.payouts := rfl

theorem autoAssignWith_find_assigned (elig : Order → Bool) (genId : ℕ → String)
    (now : ℤ) (st : Store) (o : Order) (ho : o ∈ st.orders)
    (helig : elig o = true)
    (hnd : (st.orders.map (fun x => x.orderId)).Nodup)
    (hdr : st.drivers ≠ []) :
    ∃ j, ((autoAssignWith elig genId now st).2.orders).find?
      (fun x => x.orderId == o.orderId) = some (assignToBatch (genId j) o) := by
  have hoc : o ∈ st.orders.filter elig := List.mem_filter.mpr ⟨ho, helig⟩
  have hnodc : ((st.orders.filter elig).map (fun x => x.orderId)).Nodup :=
    ((List.filter_sublist st.orders).map (fun x => x.orderId)).nodup hnd
  have hkey : clusterKey o ∈ firstOccs ((st.orders.filter elig).map clusterKey) :=
    (mem_firstOccs _ _).mpr (List.mem_map_of_mem clusterKey hoc)
  have hknd := nodup_firstOccs ((st.orders.filter elig).map clusterKey)
  have hfind : st.orders.find? (fun x => x.orderId == o.orderId) = some o :=
    find?_eq_some_self_of_nodup (fun x => x.orderId) hnd ho
  obtain ⟨j, hj⟩ := runGroups_find_assigned genId now st.drivers
    (st.orders.filter elig) o hdr hoc hnodc
    (firstOccs ((st.orders.filter elig).map clusterKey)) st.orders [] 0
    hkey hknd hfind
  exact ⟨j, hj⟩

theorem autoAssignWith_find_frozen (elig : Order → Bool) (genId : ℕ → String)
    (now : ℤ) (st : Store) (o : Order) (ho : o ∈ st.orders)
    (helig : elig o = false)
    (hnd : (st.orders.map (fun x => x.orderId)).Nodup) :
    ((autoAssignWith elig genId now st).2.orders).find?
      (fun x => x.orderId == o.orderId) = some o := by
  have hfind : st.orders.find? (fun x => x.orderId == o.orderId) = some o :=
    find?_eq_some_self_of_nodup (fun x => x.orderId) hnd ho
  have hall : ∀ m ∈ st.orders.filter elig, m.orderId ≠ o.orderId := by
    intro m hm
    have hmc : m ∈ st.orders := List.mem_of_mem_filter hm
    have hme := List.of_mem_filter hm
    have hmo : m ≠ o := by
      intro he
      rw [he, helig] at hme
      cases hme
    exact key_ne_of_mem_nodup (fun x => x.orderId) hnd hmc ho hmo
  exact runGroups_find_frozen_of_no_cand genId now st.drivers
    (st.orders.filter elig) o.orderId o hall
    (firstOccs ((st.orders.filter elig).map clusterKey)) st.orders [] 0 hfind

theorem isCandidate_assignToBatch (bid : String) (o : Order) :
    isCandidate (assignToBatch bid o) = false := rfl

theorem autoAssign_no_candidates_after (genId : ℕ → String) (now : ℤ) (st : Store)
    (hnd : (st.orders.map (fun x => x.orderId)).Nodup) (hdr : st.drivers ≠ []) :
    ∀ y ∈ (autoAssign genId now st).2.orders, isCandidate y = false := by
  intro y hy
  have hmap := autoAssignWith_orders_map isCandidate genId now st
  have hnd' : (((autoAssign genId now st).2.orders).map (fun x => x.orderId)).Nodup := by
    rw [autoAssign, hmap]
    exact hnd
  have hyfind : ((autoAssign genId now st).2.orders).find?
      (fun x => x.orderId == y.orderId) = some y :=
    find?_eq_some_self_of_nodup (fun x => x.orderId) hnd' hy
  have hidy : y.orderId ∈ st.orders.map (fun x => x.orderId) := by
    rw [← hmap]
    exact List.mem_map_of_mem (fun x => x.orderId) hy
  obtain ⟨o, ho, hido⟩ := List.mem_map.mp hidy
  by_cases he : isCandidate o = true
  · obtain ⟨j, hj⟩ := autoAssignWith_find_assigned isCandidate genId now st o ho he hnd hdr
    rw [hido] at hj
    rw [autoAssign] at hyfind
    rw [hyfind] at hj
    have hy' : y = assignToBatch (genId j) o := Option.some.inj hj
    rw [hy']
    exact isCandidate_assignToBatch (genId j) o
  · have hfalse : isCandidate o = false := by
      cases hb : isCandidate o
      · rfl
      · exact absurd hb he
    have hj := autoAssignWith_find_frozen isCandidate genId now st o ho hfalse hnd
    rw [hido] at hj
    rw [autoAssign] at hyfind
    rw [hyfind] at hj
    have hy' : y = o := Option.some.inj hj
    rw [hy']
    exact hfalse

theorem filter_isCandidate_eq_nil {l : List Order}
    (h : ∀ y ∈ l, isCandidate y = false) : l.filter isCandidate = [] := by
  induction l with
  | nil => rfl
  | cons x xs ih =>
    rw [List.filter_cons]
    rw [h x (List.mem_cons_self x xs)]
    simp only [if_false, Bool.false_eq_true, reduceIte]
    exact ih (fun y hy => h y (List.mem_cons_of_mem x hy))

/-- C6: for every store with unique order identifiers, running `autoAssign()`
a second time with no intervening changes returns an empty batch list and
leaves the whole store (in particular the order and batch collections)
unchanged: already-assigned orders are excluded by the eligibility filter. -/
theorem autoAssign_idempotent (genId genId' : ℕ → String) (now now' : ℤ)
    (st : Store) (hnd : (st.orders.map (fun x => x.orderId)).Nodup) :
    autoAssign genId' now' (autoAssign genId now st).2 =
      ([], (autoAssign genId now st).2) := by
  by_cases hdr : st.drivers = []
  · have h1 : (autoAssign genId now st).2 = st := by
      rw [autoAssign, autoAssignWith_no_drivers isCandidate genId now st hdr]
    rw [h1, autoAssign, autoAssignWith_no_drivers isCandidate genId' now' st hdr]
  · have hnone := autoAssign_no_candidates_after genId now st hnd hdr
    have hfil : ((autoAssign genId now st).2.orders).filter isCandidate = [] :=
      filter_isCandidate_eq_nil hnone
    rw [autoAssign, autoAssignWith]
    simp only [hfil, List.map_nil]
    rw [show firstOccs [] = [] from rfl]
    rw [show ∀ os acc, runGroups genId' now' (autoAssign genId now st).2.drivers [] [] os acc 0 = (os, acc) from fun os acc => rfl]
    simp [List.append_nil]

theorem isCandidate_iff (o : Order) :
    isCandidate o = true ↔
      (o.status = "approved" ∨ o.status = "paid") ∧
        refTruthy o.assigned_batch_id = false := by
  unfold isCandidate
  rw [Bool.and_eq_true, Bool.or_eq_true, Bool.not_eq_true']
  rw [beq_iff_eq, beq_iff_eq]

theorem isCandidateV0_iff (o : Order) :
    isCandidateV0 o = true ↔
      o.status = "paid" ∧ refTruthy o.assigned_batch_id = false := by
  unfold isCandidateV0
  rw [Bool.and_eq_true, Bool.not_eq_true']
  rw [beq_iff_eq]

theorem mem_headD {α : Type} (l : List α) (d : α) (h : l ≠ []) : l.headD d ∈ l := by
  cases l with
  | nil => exact absurd rfl h
  | cons x xs => exact List.mem_cons_self x xs

/-- C1 (amended): in `yithume-lite-pro.js` the set of orders `autoAssign()`
selects as eligible is exactly the orders with status `approved` or `paid`
and no (truthy) assigned-batch reference, and every order identifier placed
into a created batch comes from such an order; in the unnamed sibling file
the eligible set is restricted to status `paid`. -/
theorem autoAssign_eligibility (genId : ℕ → String) (now : ℤ) (st : Store) :
    (∀ o, o ∈ st.orders.filter isCandidate ↔
      o ∈ st.orders ∧ (o.status = "approved" ∨ o.status = "paid") ∧
        refTruthy o.assigned_batch_id = false) ∧
    (∀ b ∈ (autoAssign genId now st).1, ∀ oid ∈ b.orders,
      ∃ o, o ∈ st.orders ∧ o.orderId = oid ∧
        (o.status = "approved" ∨ o.status = "paid") ∧
        refTruthy o.assigned_batch_id = false) ∧
    (∀ b ∈ (autoAssignV0 genId now st).1, ∀ oid ∈ b.orders,
      ∃ o, o ∈ st.orders ∧ o.orderId = oid ∧ o.status = "paid" ∧
        refTruthy o.assigned_batch_id = false) := by
  refine ⟨?_, ?_, ?_⟩
  · intro o
    rw [List.mem_filter]
    constructor
    · rintro ⟨hm, hc⟩
      exact ⟨hm, (isCandidate_iff o).mp hc⟩
    · rintro ⟨hm, hc⟩
      exact ⟨hm, (isCandidate_iff o).mpr hc⟩
  · intro b hb oid hoid
    rcases runGroups_created_char genId now st.drivers (st.orders.filter isCandidate)
        (firstOccs ((st.orders.filter isCandidate).map clusterKey)) st.orders [] 0 b hb with
      hacc | ⟨k, d, j, g0, gs, hgf, rfl⟩
    · cases hacc
    · have hoid' : oid ∈ (g0 :: gs).map (fun o => o.orderId) := hoid
      obtain ⟨o, hog, hid⟩ := List.mem_map.mp hoid'
      have hoc : o ∈ (st.orders.filter isCandidate).filter
          (fun o' => clusterKey o' == k) := hgf ▸ hog
      have ho1 : o ∈ st.orders.filter isCandidate := List.mem_of_mem_filter hoc
      have ho2 : o ∈ st.orders := List.mem_of_mem_filter ho1
      have ho3 := List.of_mem_filter ho1
      exact ⟨o, ho2, hid, (isCandidate_iff o).mp ho3⟩
  · intro b hb oid hoid
    rcases runGroups_created_char genId now st.drivers (st.orders.filter isCandidateV0)
        (firstOccs ((st.orders.filter isCandidateV0).map clusterKey)) st.orders [] 0 b hb with
      hacc | ⟨k, d, j, g0, gs, hgf, rfl⟩
    · cases hacc
    · have hoid' : oid ∈ (g0 :: gs).map (fun o => o.orderId) := hoid
      obtain ⟨o, hog, hid⟩ := List.mem_map.mp hoid'
      have hoc : o ∈ (st.orders.filter isCandidateV0).filter
          (fun o' => clusterKey o' == k) := hgf ▸ hog
      have ho1 : o ∈ st.orders.filter isCandidateV0 := List.mem_of_mem_filter hoc
      have ho2 : o ∈ st.orders := List.mem_of_mem_filter ho1
      have ho3 := List.of_mem_filter ho1
      exact ⟨o, ho2, hid, (isCandidateV0_iff o).mp ho3⟩

/-- C2: every batch created by `autoAssign()` splits the total delivery
fees between driver earnings and platform margin with a rounding
discrepancy of at most one currency unit, and exactly when the total is an
integer amount. -/
theorem autoAssign_batch_earnings (genId : ℕ → String) (now : ℤ) (st : Store)
    (b : Batch) (hb : b ∈ (autoAssign genId now st).1) :
    |((b.driver_earnings + b.platform_delivery_margin : ℤ) : ℚ) -
        (b.orders.length : ℚ) * b.delivery_fee_each| ≤ 1 ∧
      (∀ z : ℤ, (b.orders.length : ℚ) * b.delivery_fee_each = (z : ℚ) →
        b.driver_earnings + b.platform_delivery_margin = z) := by
  rcases runGroups_created_char genId now st.drivers (st.orders.filter isCandidate)
      (firstOccs ((st.orders.filter isCandidate).map clusterKey)) st.orders [] 0 b hb with
    hacc | ⟨k, d, j, g0, gs, hgf, rfl⟩
  · cases hacc
  · have hlen : (mkBatch (genId j) now k d g0 (g0 :: gs)).orders.length =
        (g0 :: gs).length := by
      unfold mkBatch
      simp [List.length_map]
    rw [hlen]
    exact computeClusterEarnings_sum_close (g0 :: gs).length (feeOf g0)

/-- C3 (amended): after one `autoAssign()` run, every order with status
`paid` and no truthy batch reference is assigned (status `assigned`, with
a non-empty batch reference), unless the driver directory is empty, in
which case the whole store is unchanged. -/
theorem autoAssign_paid_assigned (genId : ℕ → String) (now : ℤ) (st : Store)
    (o : Order) (hgen : ∀ j, genId j ≠ "")
    (hnd : (st.orders.map (fun x => x.orderId)).Nodup)
    (ho : o ∈ st.orders) (hp : o.status = "paid")
    (hr : refTruthy o.assigned_batch_id = false) :
    (st.drivers = [] → (autoAssign genId now st).2 = st) ∧
    (st.drivers ≠ [] → ∃ o' ∈ (autoAssign genId now st).2.orders,
      o'.orderId = o.orderId ∧ o'.status = "assigned" ∧
        refTruthy o'.assigned_batch_id = true) := by
  constructor
  · intro hdr
    rw [autoAssign, autoAssignWith_no_drivers isCandidate genId now st hdr]
  · intro hdr
    have helig : isCandidate o = true :=
      (isCandidate_iff o).mpr ⟨Or.inr hp, hr⟩
    obtain ⟨j, hj⟩ := autoAssignWith_find_assigned isCandidate genId now st o ho helig hnd hdr
    refine ⟨assignToBatch (genId j) o, List.mem_of_find?_eq_some hj, rfl, rfl, ?_⟩
    unfold assignToBatch refTruthy
    simp [hgen j]

/-- C9: two orders with the same zone and the same normalized delivery
address get the same cluster key, and, when both are eligible and a driver
exists, a single `autoAssign()` run puts both their identifiers into the
same created batch. -/
theorem clusterKey_same_batch (genId : ℕ → String) (now : ℤ) (st : Store)
    (o1 o2 : Order) (hz : o1.zone = o2.zone)
    (ha : normalizeAddr o1.address = normalizeAddr o2.address) :
    clusterKey o1 = clusterKey o2 ∧
      (o1 ∈ st.orders → o2 ∈ st.orders → isCandidate o1 = true →
        isCandidate o2 = true → st.drivers ≠ [] →
        ∃ b ∈ (autoAssign genId now st).1,
          o1.orderId ∈ b.orders ∧ o2.orderId ∈ b.orders) := by
  have hkey : clusterKey o1 = clusterKey o2 := by
    unfold clusterKey
    rw [hz, ha]
  refine ⟨hkey, ?_⟩
  intro h1 h2 e1 e2 hdr
  have hc1 : o1 ∈ st.orders.filter isCandidate := List.mem_filter.mpr ⟨h1, e1⟩
  have hc2 : o2 ∈ st.orders.filter isCandidate := List.mem_filter.mpr ⟨h2, e2⟩
  have ho1g : o1 ∈ (st.orders.filter isCandidate).filter
      (fun o => clusterKey o == clusterKey o1) :=
    List.mem_filter.mpr ⟨hc1, beq_self_eq_true (clusterKey o1)⟩
  have ho2g : o2 ∈ (st.orders.filter isCandidate).filter
      (fun o => clusterKey o == clusterKey o1) := by
    refine List.mem_filter.mpr ⟨hc2, ?_⟩
    rw [← hkey]
    exact beq_self_eq_true (clusterKey o1)
  cases hgf : (st.orders.filter isCandidate).filter
      (fun o => clusterKey o == clusterKey o1) with
  | nil =>
    rw [hgf] at ho1g
    cases ho1g
  | cons g0 gs =>
    have hk : clusterKey o1 ∈ firstOccs ((st.orders.filter isCandidate).map clusterKey) :=
      (mem_firstOccs _ _).mpr (List.mem_map_of_mem clusterKey hc1)
    obtain ⟨b, hbmem, hbord⟩ := runGroups_key_batch genId now st.drivers
      (st.orders.filter isCandidate) hdr (clusterKey o1) g0 gs hgf
      (firstOccs ((st.orders.filter isCandidate).map clusterKey)) st.orders [] 0 hk
    refine ⟨b, hbmem, ?_, ?_⟩
    · rw [hbord, ← hgf]
      exact List.mem_map_of_mem (fun o => o.orderId) ho1g
    · rw [hbord, ← hgf]
      exact List.mem_map_of_mem (fun o => o.orderId) ho2g

/-! ### Lemmas for `completeBatch` -/

theorem setDelivered_orderId (o : Order) :
    (setDelivered o).orderId = o.orderId := rfl

theorem setDelivered_idem (o : Order) :
    setDelivered (setDelivered o) = setDelivered o := rfl

theorem foldl_deliver_map_id :
    ∀ (oids : List String) (os : List Order),
      ((oids.foldl
        (fun os oid => updateFirst (fun o => o.orderId == oid) setDelivered os) os).map
          (fun x => x.orderId)) = os.map (fun x => x.orderId) := by
  intro oids
  induction oids with
  | nil => intro os; rfl
  | cons h t ih =>
    intro os
    simp only [List.foldl_cons]
    rw [ih, updateFirst_map_key (fun x => x.orderId) _ setDelivered setDelivered_orderId]

theorem foldl_deliver_find? (oid : String) :
    ∀ (oids : List String) (os : List Order) (v : Order),
      os.find? (fun x => x.orderId == oid) = some v →
      ∃ w, (oids.foldl
          (fun os oid' => updateFirst (fun o => o.orderId == oid') setDelivered os) os).find?
            (fun x => x.orderId == oid) = some w ∧
        (w = v ∨ w = setDelivered v) ∧ (oid ∈ oids → w = setDelivered v) := by
  intro oids
  induction oids with
  | nil =>
    intro os v hfind
    exact ⟨v, hfind, Or.inl rfl, fun h => absurd h (List.not_mem_nil oid)⟩
  | cons h t ih =>
    intro os v hfind
    simp only [List.foldl_cons]
    by_cases hh : h = oid
    · subst hh
      have hstep := find?_updateFirst_self (fun x => x.orderId) setDelivered h
        setDelivered_orderId os
      rw [hfind] at hstep
      obtain ⟨w, hw, hor, hmem⟩ := ih _ (setDelivered v) hstep
      have hwv : w = setDelivered v := by
        rcases hor with h1 | h1
        · exact h1
        · rw [h1, setDelivered_idem]
      exact ⟨w, hw, Or.inr hwv, fun _ => hwv⟩
    · have hstep := find?_updateFirst_other (fun x => x.orderId) setDelivered oid h
        hh setDelivered_orderId os
      rw [hfind] at hstep
      obtain ⟨w, hw, hor, hmem⟩ := ih _ v hstep
      refine ⟨w, hw, hor, fun hmem' => ?_⟩
      rcases List.mem_cons.mp hmem' with h1 | h1
      · exact absurd h1.symm hh
      · exact hmem h1

/-- C7: `completeBatch(batchId)` signals not-found exactly when no batch has
that identifier, mutating nothing in that case; when a batch with the
identifier exists (identifiers being unique), every stored order whose
identifier is in the batch's order list ends with status `delivered`, and
the batch ends with status `completed` and a completion timestamp. -/
theorem completeBatch_spec (now : ℤ) (bid : String) (st : Store) :
    ((completeBatch now bid st).1 = false ↔ ∀ b ∈ st.batches, b.id ≠ bid) ∧
    ((completeBatch now bid st).1 = false → (completeBatch now bid st).2 = st) ∧
    (∀ b, b ∈ st.batches → b.id = bid →
      (st.batches.map (fun x => x.id)).Nodup →
      (st.orders.map (fun x => x.orderId)).Nodup →
      (∀ o' ∈ (completeBatch now bid st).2.orders,
        o'.orderId ∈ b.orders → o'.status = "delivered") ∧
      ∃ b' ∈ (completeBatch now bid st).2.batches,
        b'.id = bid ∧ b'.status = "completed" ∧ b'.completed_at = some now) := by
  refine ⟨?_, ?_, ?_⟩
  · cases hf : st.batches.find? (fun b => b.id == bid) with
    | none =>
      rw [completeBatch, hf]
      simp only [true_iff]
      intro b hb he
      have := List.find?_eq_none.mp hf b hb
      rw [he] at this
      exact this (beq_self_eq_true bid)
    | some b =>
      rw [completeBatch, hf]
      simp only []
      constructor
      · intro h
        cases h
      · intro hall
        have hmem := List.mem_of_find?_eq_some hf
        have hpred := List.find?_some hf
        exact absurd (eq_of_beq hpred) (hall b hmem)
  · cases hf : st.batches.find? (fun b => b.id == bid) with
    | none =>
      rw [completeBatch, hf]
      intro _
      rfl
    | some b =>
      rw [completeBatch, hf]
      intro h
      cases h
  · intro b hb hbid hndB hndO
    have hf : st.batches.find? (fun y => y.id == bid) = some b := by
      rw [← hbid]
      exact find?_eq_some_self_of_nodup (fun x => x.id) hndB hb
    have hres : (completeBatch now bid st).2 =
        { st with
          orders := b.orders.foldl
            (fun os oid => updateFirst (fun o => o.orderId == oid) setDelivered os)
            st.orders
          batches := updateFirst (fun bb => bb.id == bid)
            (fun bb => { bb with status := "completed", completed_at := some now })
            st.batches } := by
      rw [completeBatch, hf]
    constructor
    · intro o' ho' hoin
      rw [hres] at ho'
      simp only [] at ho'
      have hmap := foldl_deliver_map_id b.orders st.orders
      have hnd' : ((b.orders.foldl
          (fun os oid => updateFirst (fun o => o.orderId == oid) setDelivered os)
          st.orders).map (fun x => x.orderId)).Nodup := by
        rw [hmap]
        exact hndO
      have hfind' := find?_eq_some_self_of_nodup (fun x => x.orderId) hnd' ho'
      have hidy : o'.orderId ∈ st.orders.map (fun x => x.orderId) := by
        rw [← hmap]
        exact List.mem_map_of_mem (fun x => x.orderId) ho'
      obtain ⟨o, ho, hido⟩ := List.mem_map.mp hidy
      have hfo : st.orders.find? (fun x => x.orderId == o'.orderId) = some o := by
        rw [← hido]
        exact find?_eq_some_self_of_nodup (fun x => x.orderId) hndO ho
      obtain ⟨w, hw, _, hwmem⟩ := foldl_deliver_find? o'.orderId b.orders st.orders o hfo
      rw [hfind'] at hw
      have ho'w : o' = w := Option.some.inj hw
      rw [ho'w, hwmem hoin]
      rfl
    · have hpres : ∀ x : Batch,
          ((fun bb : Batch => { bb with status := "completed", completed_at := some now }) x).id =
            x.id := fun x => rfl
      have hupd := find?_updateFirst_self (fun x => x.id)
        (fun bb : Batch => { bb with status := "completed", completed_at := some now }) bid
        hpres st.batches
      rw [hf] at hupd
      refine ⟨{ b with status := "completed", completed_at := some now }, ?_, ?_, rfl, rfl⟩
      · rw [hres]
        exact List.mem_of_find?_eq_some hupd
      · exact hbid

/-! ### Lemmas for `generateWeeklyPayouts` -/

theorem buildPayouts_week_label (genId : ℕ → String) (now : ℤ) (week : String)
    (mondayMs sundayMs : ℤ) (inRange : List Batch) (p : Payout) :
    ∀ (ids : List String) (j : ℕ),
      p ∈ buildPayouts genId now week mondayMs sundayMs inRange ids j →
      p.week_label = week := by
  intro ids
  induction ids with
  | nil => intro j hp; cases hp
  | cons did rest ih =>
    intro j hp
    rcases List.mem_cons.mp hp with rfl | hp'
    · rfl
    · exact ih (j + 1) hp'

/-- C4 (amended): every payout record created by `generateWeeklyPayouts`
carries the week label `weekLabel` of the Monday starting the window: the
Monday's calendar year, `-W`, and the two-digit week number obtained by
counting days from January 1 of that calendar year (`jsWeekNumber`).  This
is not the ISO-8601 year/week pair: it diverges at year boundaries. -/
theorem payout_week_label (genId : ℕ → String) (now forMs : ℤ) (st : Store)
    (p : Payout) (hp : p ∈ (generateWeeklyPayouts genId now forMs st).1) :
    p.week_label = weekLabel (mondayDayOf forMs) := by
  have hp' : p ∈ buildPayouts genId now (weekLabel (mondayDayOf forMs))
      (mondayDayOf forMs * 86400000) (mondayDayOf forMs * 86400000 + 7 * 86400000 - 1)
      (st.batches.filter (inWindow (mondayDayOf forMs * 86400000)
        (mondayDayOf forMs * 86400000 + 7 * 86400000 - 1)))
      (firstOccs ((st.batches.filter (inWindow (mondayDayOf forMs * 86400000)
        (mondayDayOf forMs * 86400000 + 7 * 86400000 - 1))).map (fun b => b.driver.id)))
      0 := hp
  exact buildPayouts_week_label genId now (weekLabel (mondayDayOf forMs))
    (mondayDayOf forMs * 86400000) (mondayDayOf forMs * 86400000 + 7 * 86400000 - 1)
    (st.batches.filter (inWindow (mondayDayOf forMs * 86400000)
      (mondayDayOf forMs * 86400000 + 7 * 86400000 - 1)))
    p
    (firstOccs ((st.batches.filter (inWindow (mondayDayOf forMs * 86400000)
      (mondayDayOf forMs * 86400000 + 7 * 86400000 - 1))).map (fun b => b.driver.id)))
    0 hp'

theorem generateWeeklyPayouts_payouts (genId : ℕ → String) (now forMs : ℤ)
    (st : Store) :
    (generateWeeklyPayouts genId now forMs st).2.payouts =
      st.payouts ++ (generateWeeklyPayouts genId now forMs st).1 := rfl

/-- C8: when the Monday-to-Sunday window of the reference date contains
exactly one completed batch, `generateWeeklyPayouts` appends exactly one
payout record, whose earnings equal that batch's driver earnings. -/
theorem generateWeeklyPayouts_single (genId : ℕ → String) (now forMs : ℤ)
    (st : Store) (b : Batch)
    (h : st.batches.filter (inWindow (mondayDayOf forMs * 86400000)
      (mondayDayOf forMs * 86400000 + 7 * 86400000 - 1)) = [b]) :
    ∃ p, (generateWeeklyPayouts genId now forMs st).1 = [p] ∧
      p.earnings = b.driver_earnings ∧ p.driver = b.driver ∧
      (generateWeeklyPayouts genId now forMs st).2.payouts = st.payouts ++ [p] := by
  have hfil : ([b].filter (fun bb => bb.driver.id == b.driver.id)) = [b] := by
    simp [List.filter_cons]
  have hout : (generateWeeklyPayouts genId now forMs st).1 =
      [mkPayout (genId 0) now (weekLabel (mondayDayOf forMs))
        (mondayDayOf forMs * 86400000)
        (mondayDayOf forMs * 86400000 + 7 * 86400000 - 1) b.driver.id [b]] := by
    simp only [generateWeeklyPayouts, h]
    simp only [List.map_cons, List.map_nil]
    rw [show firstOccs [b.driver.id] = [b.driver.id] from rfl]
    simp only [buildPayouts, hfil]
  refine ⟨mkPayout (genId 0) now (weekLabel (mondayDayOf forMs))
    (mondayDayOf forMs * 86400000)
    (mondayDayOf forMs * 86400000 + 7 * 86400000 - 1) b.driver.id [b],
    hout, ?_, rfl, ?_⟩
  · show sumEarnings [b] = b.driver_earnings
    simp [sumEarnings]
  · rw [generateWeeklyPayouts_payouts, hout]

/-- C5: `computeClusterEarnings` implements exactly the documented formula
(round-half-up of the first-stop share plus the reduced next-stop shares,
and round-half-up of the remainder), and matches the two worked examples. -/
theorem computeClusterEarnings_formula (n : ℕ) (fee : ℚ) (h1 : 1 ≤ n)
    (h2 : 0 ≤ fee) :
    computeClusterEarnings n fee =
      (roundHalfUp (fee * driverShareFirst +
          ((max 0 ((n : ℤ) - 1) : ℤ) : ℚ) * fee * driverShareNext),
        roundHalfUp ((n : ℚ) * fee -
          (roundHalfUp (fee * driverShareFirst +
            ((max 0 ((n : ℤ) - 1) : ℤ) : ℚ) * fee * driverShareNext) : ℚ))) ∧
      computeClusterEarnings 1 100 = (100, 0) ∧
      computeClusterEarnings 3 100 = (180, 120) := by
  refine ⟨?_, ?_, ?_⟩
  · rw [roundHalfUp_eq_jsRound, roundHalfUp_eq_jsRound]
    rfl
  · norm_num [computeClusterEarnings, jsRound, driverShareFirst, driverShareNext]
  · norm_num [computeClusterEarnings, jsRound, driverShareFirst, driverShareNext]

/-- C10: called outside its documented precondition with `orderCount = 0`,
`computeClusterEarnings` still returns: the driver is paid the rounded
full first-stop share of the fee, and the platform margin is its negation. -/
theorem computeClusterEarnings_zero_orders (f : ℚ) :
    computeClusterEarnings 0 f = (roundHalfUp f, -(roundHalfUp f)) := by
  rw [roundHalfUp_eq_jsRound]
  have hmax : (max 0 (((0 : ℕ) : ℤ) - 1)) = 0 := by decide
  have hfst : (computeClusterEarnings 0 f).1 = jsRound f := by
    rw [computeClusterEarnings_fst, hmax]
    norm_num [driverShareFirst]
  have hsnd : (computeClusterEarnings 0 f).2 = -(jsRound f) := by
    rw [computeClusterEarnings_snd, hfst]
    have harg : ((0 : ℕ) : ℚ) * f - ((jsRound f : ℤ) : ℚ) =
        (((-(jsRound f)) : ℤ) : ℚ) := by
      push_cast
      ring
    rw [harg, jsRound_intCast]
  rw [← hsnd, ← hfst]

/-! ### Concrete fixtures for counterexamples and witnesses -/

/-- A constant batch/payout identifier generator (the source derives these
from the clock and a random suffix). -/
def genB (_ : ℕ) : String := "BAT-000001-1"

def wDriverA : Driver :=
  { id := "DRV-000001"
    name := "Thabo"
    zone := "A"
    is_active := true }

def wOrderPaid : Order :=
  { orderId := "O1"
    zone := "A"
    address := "12 Main St"
    baseFee := 40
    rushFee := 0
    status := "paid"
    assigned_batch_id := none }

def wOrderPaid2 : Order :=
  { orderId := "O2"
    zone := "A"
    address := " 12  MAIN st "
    baseFee := 40
    rushFee := 0
    status := "paid"
    assigned_batch_id := none }

def wOrderApproved : Order :=
  { orderId := "O3"
    zone := "A"
    address := "7 Oak Ave"
    baseFee := 40
    rushFee := 30
    status := "approved"
    assigned_batch_id := none }

def wOrderPaidB : Order :=
  { orderId := "O4"
    zone := "B"
    address := ""
    baseFee := 60
    rushFee := 0
    status := "paid"
    assigned_batch_id := none }

def dummyBatch : Batch :=
  { id := ""
    zone := ""
    cluster_key := ""
    driver := noDriver
    orders := []
    delivery_fee_each := 0
    driver_earnings := 0
    platform_delivery_margin := 0
    status := ""
    started_at := 0
    completed_at := none }

def dummyPayout : Payout :=
  { id := ""
    week_label := ""
    windowFrom := 0
    windowTo := 0
    driver := noDriver
    earnings := 0
    orders_count := 0
    batches_count := 0
    status := ""
    created_at := 0
    ref := "" }

def wStore1 : Store :=
  { orders := [wOrderPaid]
    drivers := [wDriverA]
    batches := []
    payouts := [] }

def cexApprovedStore : Store :=
  { orders := [wOrderApproved]
    drivers := [wDriverA]
    batches := []
    payouts := [] }

def cexZoneStore : Store :=
  { orders := [wOrderPaidB]
    drivers := [wDriverA]
    batches := []
    payouts := [] }

def wBatch : Batch :=
  { id := "BAT-9"
    zone := "A"
    cluster_key := "A::zone-only"
    driver := wDriverA
    orders := ["O1"]
    delivery_fee_each := 40
    driver_earnings := 40
    platform_delivery_margin := 0
    status := "assigned"
    started_at := 0
    completed_at := none }

def wStore2 : Store :=
  { orders := [wOrderPaid]
    drivers := [wDriverA]
    batches := [wBatch]
    payouts := [] }

/-- Noon is irrelevant: midnight UTC of 2024-12-30, a Monday. -/
def cexMs : ℤ := daysFromCivil 2024 12 30 * 86400000

def cexBatchDec : Batch :=
  { id := "BAT-8"
    zone := "A"
    cluster_key := "A::zone-only"
    driver := wDriverA
    orders := ["O1"]
    delivery_fee_each := 40
    driver_earnings := 40
    platform_delivery_margin := 0
    status := "completed"
    started_at := 0
    completed_at := some cexMs }

def cexPayoutStore : Store :=
  { orders := []
    drivers := [wDriverA]
    batches := [cexBatchDec]
    payouts := [] }

def wStore4 : Store :=
  { orders := [wOrderPaid, wOrderPaid2]
    drivers := [wDriverA]
    batches := []
    payouts := [] }

/-! ### Counterexamples -/

/-- C1 counterexample: `autoAssign()` of `yithume-lite-pro.js` places an
order whose status is `approved` (not `paid`) into a batch. -/
theorem autoAssign_selects_approved_cex :
    wOrderApproved.status = "approved" ∧
    refTruthy wOrderApproved.assigned_batch_id = false ∧
    ((autoAssign genB 0 cexApprovedStore).1.map (fun b => b.orders)) = [["O3"]] ∧
    ((autoAssign genB 0 cexApprovedStore).2.orders.map (fun o => o.status)) =
      ["assigned"] := by
  refine ⟨rfl, rfl, by decide, by decide⟩

/-- C3 counterexample: a paid order whose zone has no driver is still
assigned (to the fallback driver of another zone), so it is not left
unchanged as the claim states. -/
theorem autoAssign_zone_fallback_cex :
    wOrderPaidB.status = "paid" ∧
    refTruthy wOrderPaidB.assigned_batch_id = false ∧
    (∀ d ∈ cexZoneStore.drivers, d.zone ≠ wOrderPaidB.zone) ∧
    (cexZoneStore.orders.map (fun o => o.status)) = ["paid"] ∧
    ((autoAssign genB 0 cexZoneStore).2.orders.map (fun o => o.status)) =
      ["assigned"] := by
  refine ⟨rfl, rfl, by decide, by decide, by decide⟩

/-- C4 counterexample: for the reference date Monday 2024-12-30 the payout
week label written by the code is `2024-W53`, while the ISO-8601 label of
that Monday is `2025-W01`. -/
theorem weekLabel_not_iso_cex :
    dowOfDay (civilDayOfMs cexMs) = 1 ∧
    ((generateWeeklyPayouts genB 0 cexMs cexPayoutStore).1.map
      (fun p => p.week_label)) = ["2024-W53"] ∧
    isoWeekLabel (mondayDayOf cexMs) = "2025-W01" ∧
    ("2024-W53" : String) ≠ "2025-W01" := by
  refine ⟨by decide, by decide, by decide, by decide⟩

/-! ### Witnesses -/

theorem autoAssign_eligibility_witness :
    ∃ o, o ∈ cexApprovedStore.orders ∧ o.orderId = "O3" ∧
      (o.status = "approved" ∨ o.status = "paid") ∧
      refTruthy o.assigned_batch_id = false :=
  (autoAssign_eligibility genB 0 cexApprovedStore).2.1
    ((autoAssign genB 0 cexApprovedStore).1.headD dummyBatch)
    (mem_headD _ _ (by decide)) "O3" (by decide)

theorem autoAssign_batch_earnings_witness :
    |((((autoAssign genB 0 wStore1).1.headD dummyBatch).driver_earnings +
        ((autoAssign genB 0 wStore1).1.headD dummyBatch).platform_delivery_margin : ℤ) : ℚ) -
        (((autoAssign genB 0 wStore1).1.headD dummyBatch).orders.length : ℚ) *
          ((autoAssign genB 0 wStore1).1.headD dummyBatch).delivery_fee_each| ≤ 1 ∧
      (∀ z : ℤ,
        (((autoAssign genB 0 wStore1).1.headD dummyBatch).orders.length : ℚ) *
            ((autoAssign genB 0 wStore1).1.headD dummyBatch).delivery_fee_each = (z : ℚ) →
        ((autoAssign genB 0 wStore1).1.headD dummyBatch).driver_earnings +
            ((autoAssign genB 0 wStore1).1.headD dummyBatch).platform_delivery_margin = z) :=
  autoAssign_batch_earnings genB 0 wStore1
    ((autoAssign genB 0 wStore1).1.headD dummyBatch)
    (mem_headD _ _ (by decide))

theorem autoAssign_paid_assigned_witness :
    (wStore1.drivers = [] → (autoAssign genB 0 wStore1).2 = wStore1) ∧
    (wStore1.drivers ≠ [] → ∃ o' ∈ (autoAssign genB 0 wStore1).2.orders,
      o'.orderId = wOrderPaid.orderId ∧ o'.status = "assigned" ∧
        refTruthy o'.assigned_batch_id = true) :=
  autoAssign_paid_assigned genB 0 wStore1 wOrderPaid
    (fun _ => by unfold genB; decide) (by decide)
    (List.mem_cons_self wOrderPaid []) rfl rfl

theorem payout_week_label_witness :
    ((generateWeeklyPayouts genB 0 cexMs cexPayoutStore).1.headD dummyPayout).week_label =
      weekLabel (mondayDayOf cexMs) :=
  payout_week_label genB 0 cexMs cexPayoutStore
    ((generateWeeklyPayouts genB 0 cexMs cexPayoutStore).1.headD dummyPayout)
    (mem_headD _ _ (by decide))

theorem computeClusterEarnings_formula_witness :
    (1 ≤ 3 ∧ (0 : ℚ) ≤ 100) ∧
    (computeClusterEarnings 3 100 =
      (roundHalfUp ((100 : ℚ) * driverShareFirst +
          ((max 0 (((3 : ℕ) : ℤ) - 1) : ℤ) : ℚ) * 100 * driverShareNext),
        roundHalfUp (((3 : ℕ) : ℚ) * 100 -
          (roundHalfUp ((100 : ℚ) * driverShareFirst +
            ((max 0 (((3 : ℕ) : ℤ) - 1) : ℤ) : ℚ) * 100 * driverShareNext) : ℚ))) ∧
      computeClusterEarnings 1 100 = (100, 0) ∧
      computeClusterEarnings 3 100 = (180, 120)) :=
  ⟨⟨by norm_num, by norm_num⟩,
    computeClusterEarnings_formula 3 100 (by norm_num) (by norm_num)⟩

theorem autoAssign_idempotent_witness :
    autoAssign genB 0 (autoAssign genB 0 wStore1).2 =
      ([], (autoAssign genB 0 wStore1).2) :=
  autoAssign_idempotent genB genB 0 0 wStore1 (by decide)

theorem completeBatch_spec_witness :
    (∀ o' ∈ (completeBatch 5 "BAT-9" wStore2).2.orders,
      o'.orderId ∈ wBatch.orders → o'.status = "delivered") ∧
    ∃ b' ∈ (completeBatch 5 "BAT-9" wStore2).2.batches,
      b'.id = "BAT-9" ∧ b'.status = "completed" ∧ b'.completed_at = some 5 :=
  (completeBatch_spec 5 "BAT-9" wStore2).2.2 wBatch
    (List.mem_cons_self wBatch []) rfl (by decide) (by decide)

theorem generateWeeklyPayouts_single_witness :
    ∃ p, (generateWeeklyPayouts genB 0 cexMs cexPayoutStore).1 = [p] ∧
      p.earnings = cexBatchDec.driver_earnings ∧ p.driver = cexBatchDec.driver ∧
      (generateWeeklyPayouts genB 0 cexMs cexPayoutStore).2.payouts =
        cexPayoutStore.payouts ++ [p] :=
  generateWeeklyPayouts_single genB 0 cexMs cexPayoutStore cexBatchDec (by rfl)

theorem clusterKey_same_batch_witness :
    clusterKey wOrderPaid = clusterKey wOrderPaid2 ∧
    ∃ b ∈ (autoAssign genB 0 wStore4).1,
      wOrderPaid.orderId ∈ b.orders ∧ wOrderPaid2.orderId ∈ b.orders :=
  ⟨(clusterKey_same_batch genB 0 wStore4 wOrderPaid wOrderPaid2 rfl (by decide)).1,
    (clusterKey_same_batch genB 0 wStore4 wOrderPaid wOrderPaid2 rfl (by decide)).2
      (List.mem_cons_self wOrderPaid [wOrderPaid2])
      (List.mem_cons_of_mem wOrderPaid (List.mem_cons_self wOrderPaid2 []))
      (by decide) (by decide) (by decide)⟩

end YiThume
